import Mathlib

/-!
Verification of the `ssample` streaming reservoir sampler (`ssample.go`)
against its natural-language specification.

Modelling conventions:

* The Go `Collector` struct is embedded as a Lean structure.  The mutex `l`
  is dropped: each operation is modelled as a pure state transformer, and an
  interleaving of operations is a list of calls applied in sequence.  The
  lazily initialised `rng` field is replaced by explicit oracle arguments:
  each `AddLine` call receives the value `rf` that `rng.Float64()` would
  return (a rational in `[0,1)`) and the value that `rng.Intn(len(c.lines))`
  would return (a natural number, reduced modulo the slice length, matching
  `Intn`'s range `[0, n)`).
* Go `int` is embedded as `ℤ` where it can be negative (`LinesToKeep`, set
  from a command-line flag) and as `ℕ` for the monotone counter `linesSeen`
  and the stored line numbers; overflow is immaterial to the claims.
* The `float64` division `float64(c.LinesToKeep-1) / float64(c.linesSeen)`
  is embedded as division in `ℚ`, with Lean's convention `x / 0 = 0`.  For
  the comparison `rf < threshold` this coincides with Go float semantics at
  every point the claims touch: when `linesSeen = 0` Go produces `-Inf` (or
  `NaN` when `LinesToKeep = 1`), and `rf < -Inf` and `rf < NaN` are both
  false, exactly as `rf < 0` is false for the nonnegative draw `rf`.
-/

namespace SSample

/-- Embedding of the Go struct `Collector` from `ssample.go`.  The mutex and
the rng are dropped per the modelling conventions above. -/
structure Collector where
  LinesToKeep : ℤ
  lines : List String
  lineNumbers : List ℕ
  linesSeen : ℕ
deriving DecidableEq, Repr

/-- A fresh collector as `main` creates it: empty slices, zero counter,
capacity from the `-l` flag. -/
def initCollector (k : ℤ) : Collector :=
  { LinesToKeep := k, lines := [], lineNumbers := [], linesSeen := 0 }

/-- Embedding of `Collector.AddLine` (ssample.go lines 34–54).  `rf` is the
oracle value of `c.rng.Float64()` and `evictDraw` feeds
`c.rng.Intn(len(c.lines))` (reduced mod the length to land in `Intn`'s
range).  Mirrors the source: if the reservoir is not yet full the line is
appended with the current `linesSeen` as its number; otherwise it replaces a
drawn slot iff `rf < (LinesToKeep-1)/linesSeen`; `linesSeen` is always
incremented at the end. -/
def AddLine (c : Collector) (line : String) (rf : ℚ) (evictDraw : ℕ) : Collector :=
  let c1 :=
    if (c.lines.length : ℤ) < c.LinesToKeep then
      { c with
        lines := c.lines ++ [line]
        lineNumbers := c.lineNumbers ++ [c.linesSeen] }
    else
      if rf < ((c.LinesToKeep : ℚ) - 1) / (c.linesSeen : ℚ) then
        let evict := evictDraw % c.lines.length
        { c with
          lines := c.lines.set evict line
          lineNumbers := c.lineNumbers.set evict c.linesSeen }
      else
        c
  { c1 with linesSeen := c1.linesSeen + 1 }

/-- Embedding of `Collector.Seen` (ssample.go lines 56–60). -/
def Seen (c : Collector) : ℕ := c.linesSeen

/-- One `AddLine` call: the line together with its two rng oracle values. -/
abbrev AddCall := String × ℚ × ℕ

/-- Apply a sequence of `AddLine` calls in order. -/
def runAdds (c : Collector) (calls : List AddCall) : Collector :=
  calls.foldl (fun s a => AddLine s a.1 a.2.1 a.2.2) c

/-- All states a collector passes through while a sequence of `AddLine`
calls executes, the initial state included. -/
def statesFrom : Collector → List AddCall → List Collector
  | c, [] => [c]
  | c, a :: rest => c :: statesFrom (AddLine c a.1 a.2.1 a.2.2) rest

/-- Embedding of the `sorter` (ssample.go lines 84–104) as used by
`sort.Sort`: the two parallel slices are sorted together by line number.
We model the pair of parallel slices as a list of pairs and `sort.Sort`
as a merge sort with the comparison `≤` on line numbers; since stored line
numbers are pairwise distinct in every reachable state, every correct sort
produces this same output. -/
def sortPairs (ps : List (String × ℕ)) : List (String × ℕ) :=
  ps.mergeSort (fun a b => a.2 ≤ b.2)

/-- Embedding of `Collector.LinesAndNumbers` (ssample.go lines 72–82):
copies of the two parallel slices, sorted together ascending by line
number, returned as `(lines, lineNumbers)`. -/
def LinesAndNumbers (c : Collector) : List String × List ℕ :=
  let s := sortPairs (c.lines.zip c.lineNumbers)
  (s.map Prod.fst, s.map Prod.snd)

/-- Embedding of the package-level `falseish` slice (ssample.go line 150). -/
def falseish : List String := ["", "f", "F", "False", "FALSE", "false", "0"]

/-- Embedding of `boolish` (ssample.go lines 152–159): true unless the
string matches one of the `falseish` entries exactly. -/
def boolish (s : String) : Bool :=
  falseish.all (fun v => v ≠ s)

/-- The three possible response bodies of `ssampleServer.ServeHTTP`.  The
JSON branch is kept symbolic (the marshalled fields), since no claim
concerns the JSON wire syntax; `json.Marshal` cannot fail on this struct so
the 500 path is unreachable and not modelled. -/
inductive RespBody where
  | plain (body : String)
  | text (body : String)
  | json (lines : List String) (lineNumbers : List ℕ) (seen : ℕ)
deriving DecidableEq, Repr

/-- Body written by the `plainmode` branch of `ServeHTTP`: `"%s\n"` per
line, iterating `out.Lines` in order. -/
def plainBody (lines : List String) : String :=
  String.join (lines.map (fun line => line ++ "\n"))

/-- Body written by the `textmode` branch of `ServeHTTP`: `"%d\t%s\n"` per
entry, iterating `out.LineNumbers` with the parallel `out.Lines`. -/
def textBody (lines : List String) (nums : List ℕ) : String :=
  String.join ((nums.zip lines).map (fun p => s!"{p.1}\t{p.2}\n"))

/-- Embedding of `ssampleServer.ServeHTTP` (ssample.go lines 171–197).
`tval` and `pval` are the values of the request's `t` and `p` query
parameters (`FormValue` returns `""` when absent).  The handler captures
the sorted entries via `LinesAndNumbers()` and then the seen count via
`Seen()` under a second, separate lock acquisition; `interleave` is the
(possibly empty) sequence of `AddLine` calls that other goroutines run
between those two captures. -/
def ServeHTTP (c : Collector) (interleave : List AddCall) (tval pval : String) :
    RespBody :=
  let textmode := boolish tval
  let plainmode := boolish pval
  let outLines := (LinesAndNumbers c).1
  let outLineNumbers := (LinesAndNumbers c).2
  let outLinesSeen := Seen (runAdds c interleave)
  if plainmode then
    .plain (plainBody outLines)
  else if textmode then
    .text (textBody outLines outLineNumbers)
  else
    .json outLines outLineNumbers outLinesSeen

/-- Modelled from the spec: the Algorithm R admission rule the spec
prescribes for a full reservoir — admit iff the uniform draw `r` satisfies
`r < capacity / (seen + 1)`, with `seen` read before its increment.  This
is the spec-side definition to be compared with the keep test inside
`AddLine`. -/
def specAdmit (capacity : ℤ) (seen : ℕ) (r : ℚ) : Prop :=
  r < (capacity : ℚ) / ((seen : ℚ) + 1)

instance (capacity : ℤ) (seen : ℕ) (r : ℚ) : Decidable (specAdmit capacity seen r) := by
  unfold specAdmit; infer_instance

/-- Case-insensitive string match, character by character (both strings
are ASCII here, so per-character lowering is exact). -/
def ciMatch (s t : String) : Prop :=
  s.data.map Char.toLower = t.data.map Char.toLower

instance (s t : String) : Decidable (ciMatch s t) := by
  unfold ciMatch; infer_instance

/-- Modelled from the spec: the truthiness rule as the spec states it — a
parameter value is false only if it is empty or a case-insensitive match of
`false`, `f`, or `0`. -/
def specFalseToken (s : String) : Prop :=
  s = "" ∨ ciMatch s "false" ∨ ciMatch s "f" ∨ ciMatch s "0"

instance (s : String) : Decidable (specFalseToken s) := by
  unfold specFalseToken; infer_instance

/-!
Termination-coordination model.  In `ssample.go` the completion signal is
the pair (`shouldquit` flag, `gcond` condition variable on `globalm`):
`gogently` sets the flag and broadcasts when a signal arrives (lines
114–119), `reader`'s deferred function broadcasts when stdin is exhausted
(lines 121–130), and `main` is the only waiter — it locks `globalm` and
calls `gcond.Wait()` once (lines 246–248), with no predicate loop.  We
model an execution as a list of events applied in program-interleaving
order.  Per the documented semantics of `sync.Cond`, `Broadcast` wakes
exactly the goroutines that are waiting at that moment; a `Wait` that
begins after a `Broadcast` is unaffected by it and blocks until a later
`Broadcast`.
-/

/-- State of the termination coordination: the `shouldquit` flag, whether
`main` is currently blocked in `gcond.Wait()`, and whether `main` has been
woken. -/
structure GateState where
  shouldquit : Bool
  mainWaiting : Bool
  mainWoken : Bool
deriving DecidableEq, Repr

/-- The state before any trigger or wait. -/
def gateInit : GateState :=
  { shouldquit := false, mainWaiting := false, mainWoken := false }

/-- Events of the termination coordination: the interrupt trigger
(`gogently`: set `shouldquit`, broadcast), the stream-exhaustion trigger
(`reader`'s defer: broadcast), and `main` entering `gcond.Wait()`. -/
inductive GateEv where
  | interruptTrigger
  | exhaustTrigger
  | mainWait
deriving DecidableEq, Repr

/-- One step of the coordination model.  A broadcast wakes `main` iff it is
waiting at that moment; `main`'s `Wait` has no predicate recheck, so it
blocks unconditionally when executed. -/
def gateStep (s : GateState) : GateEv → GateState
  | .interruptTrigger =>
    { shouldquit := true
      mainWaiting := false
      mainWoken := s.mainWoken || s.mainWaiting }
  | .exhaustTrigger =>
    { s with
      mainWaiting := false
      mainWoken := s.mainWoken || s.mainWaiting }
  | .mainWait =>
    { s with mainWaiting := true }

/-- Run a whole interleaving of coordination events. -/
def gateRun (s : GateState) (evs : List GateEv) : GateState :=
  evs.foldl gateStep s

/-! Basic facts about single `AddLine` steps. -/

theorem AddLine_linesSeen (c : Collector) (line : String) (rf : ℚ) (e : ℕ) :
    (AddLine c line rf e).linesSeen = c.linesSeen + 1 := by
  unfold AddLine
  split
  · rfl
  · split <;> rfl

theorem AddLine_LinesToKeep (c : Collector) (line : String) (rf : ℚ) (e : ℕ) :
    (AddLine c line rf e).LinesToKeep = c.LinesToKeep := by
  unfold AddLine
  split
  · rfl
  · split <;> rfl

theorem runAdds_nil (c : Collector) : runAdds c [] = c := rfl

theorem runAdds_cons (c : Collector) (a : AddCall) (calls : List AddCall) :
    runAdds c (a :: calls) = runAdds (AddLine c a.1 a.2.1 a.2.2) calls := rfl

theorem runAdds_linesSeen (c : Collector) (calls : List AddCall) :
    (runAdds c calls).linesSeen = c.linesSeen + calls.length := by
  induction calls generalizing c with
  | nil => simp [runAdds_nil]
  | cons a rest ih =>
    rw [runAdds_cons, ih, AddLine_linesSeen, List.length_cons]
    omega

theorem runAdds_LinesToKeep (c : Collector) (calls : List AddCall) :
    (runAdds c calls).LinesToKeep = c.LinesToKeep := by
  induction calls generalizing c with
  | nil => rfl
  | cons a rest ih => rw [runAdds_cons, ih, AddLine_LinesToKeep]

/-- Case analysis on the three code paths of `AddLine`: growth (reservoir
not yet full), replacement (full and the keep test passed), rejection
(full and the keep test failed). -/
theorem AddLine_cases (c : Collector) (line : String) (rf : ℚ) (e : ℕ) :
    ((c.lines.length : ℤ) < c.LinesToKeep ∧
      (AddLine c line rf e).lines = c.lines ++ [line] ∧
      (AddLine c line rf e).lineNumbers = c.lineNumbers ++ [c.linesSeen]) ∨
    (¬ (c.lines.length : ℤ) < c.LinesToKeep ∧
      rf < ((c.LinesToKeep : ℚ) - 1) / (c.linesSeen : ℚ) ∧
      (AddLine c line rf e).lines = c.lines.set (e % c.lines.length) line ∧
      (AddLine c line rf e).lineNumbers
        = c.lineNumbers.set (e % c.lines.length) c.linesSeen) ∨
    (¬ (c.lines.length : ℤ) < c.LinesToKeep ∧
      ¬ rf < ((c.LinesToKeep : ℚ) - 1) / (c.linesSeen : ℚ) ∧
      (AddLine c line rf e).lines = c.lines ∧
      (AddLine c line rf e).lineNumbers = c.lineNumbers) := by
  unfold AddLine
  split
  · exact Or.inl ⟨by assumption, rfl, rfl⟩
  · split
    · exact Or.inr (Or.inl ⟨by assumption, by assumption, rfl, rfl⟩)
    · exact Or.inr (Or.inr ⟨by assumption, by assumption, rfl, rfl⟩)

/-- With a nonpositive capacity the keep test `rf < (LinesToKeep-1)/linesSeen`
is false for every nonnegative draw: the threshold is negative when
`linesSeen > 0` and the division degenerates when `linesSeen = 0` (Go
yields `-Inf` or `NaN`, our `ℚ` model yields `0`; the comparison is false
either way). -/
theorem keep_false_of_nonpositive {k : ℤ} (hk : k ≤ 0) (seen : ℕ) {rf : ℚ}
    (hrf : 0 ≤ rf) :
    ¬ rf < ((k : ℚ) - 1) / (seen : ℚ) := by
  intro h
  have hnum : ((k : ℚ) - 1) < 0 := by
    have : (k : ℚ) ≤ 0 := by exact_mod_cast hk
    linarith
  rcases Nat.eq_zero_or_pos seen with h0 | hpos
  · rw [h0] at h
    simp at h
    linarith
  · have hden : (0 : ℚ) < (seen : ℚ) := by exact_mod_cast hpos
    have : ((k : ℚ) - 1) / (seen : ℚ) < 0 := div_neg_of_neg_of_pos hnum hden
    linarith

/-- With a nonpositive capacity, `AddLine` takes the rejection path: it
only increments `linesSeen` (in particular `rng.Intn` is never invoked, so
the Go code cannot panic there). -/
theorem AddLine_of_nonpositive {c : Collector} (hk : c.LinesToKeep ≤ 0)
    {rf : ℚ} (hrf : 0 ≤ rf) (line : String) (e : ℕ) :
    AddLine c line rf e = { c with linesSeen := c.linesSeen + 1 } := by
  unfold AddLine
  rw [if_neg (by omega : ¬ (c.lines.length : ℤ) < c.LinesToKeep),
    if_neg (keep_false_of_nonpositive hk c.linesSeen hrf)]

/-! The reachability invariant: the two parallel slices have equal length,
every stored line number is below the current `linesSeen`, and the stored
line numbers are pairwise distinct. -/

/-- Invariant of every reachable collector state. -/
def Inv (c : Collector) : Prop :=
  c.lineNumbers.length = c.lines.length ∧
  (∀ n ∈ c.lineNumbers, n < c.linesSeen) ∧
  c.lineNumbers.Nodup

theorem nodup_set_of_not_mem {α : Type} {a : α} :
    ∀ (l : List α) (i : ℕ), l.Nodup → a ∉ l → (l.set i a).Nodup
  | [], _, _, _ => List.nodup_nil
  | b :: l, 0, h, ha => by
    rw [List.set_cons_zero]
    rw [List.nodup_cons] at h ⊢
    exact ⟨fun hm => ha (List.mem_cons_of_mem b hm), h.2⟩
  | b :: l, i + 1, h, ha => by
    rw [List.set_cons_succ]
    rw [List.nodup_cons] at h ⊢
    refine ⟨fun hm => ?_, nodup_set_of_not_mem l i h.2 (fun hm => ha (List.mem_cons_of_mem b hm))⟩
    rcases List.mem_or_eq_of_mem_set hm with hb | hb
    · exact h.1 hb
    · exact ha (hb ▸ List.mem_cons_self b l)

theorem Inv_init (k : ℤ) : Inv (initCollector k) := by
  refine ⟨rfl, ?_, List.nodup_nil⟩
  intro n hn
  simp [initCollector] at hn

theorem Inv_AddLine {c : Collector} (h : Inv c) (line : String) (rf : ℚ) (e : ℕ) :
    Inv (AddLine c line rf e) := by
  obtain ⟨hlen, hbound, hnodup⟩ := h
  have hseen := AddLine_linesSeen c line rf e
  rcases AddLine_cases c line rf e with ⟨_, hl, hn⟩ | ⟨_, _, hl, hn⟩ | ⟨_, _, hl, hn⟩
  · refine ⟨?_, ?_, ?_⟩
    · rw [hl, hn]
      simp [hlen]
    · intro n hmem
      rw [hn] at hmem
      rw [hseen]
      rcases List.mem_append.mp hmem with hm | hm
      · exact Nat.lt_succ_of_lt (hbound n hm)
      · simp at hm
        omega
    · rw [hn, List.nodup_append]
      refine ⟨hnodup, List.nodup_singleton _, ?_⟩
      intro n hmem hm
      simp at hm
      exact absurd (hbound n hmem) (by omega)
  · refine ⟨?_, ?_, ?_⟩
    · rw [hl, hn]
      simp [hlen]
    · intro n hmem
      rw [hn] at hmem
      rw [hseen]
      rcases List.mem_or_eq_of_mem_set hmem with hm | hm
      · exact Nat.lt_succ_of_lt (hbound n hm)
      · omega
    · rw [hn]
      exact nodup_set_of_not_mem _ _ hnodup (fun hm => absurd (hbound _ hm) (by omega))
  · refine ⟨?_, ?_, ?_⟩
    · rw [hl, hn]
      exact hlen
    · intro n hmem
      rw [hn] at hmem
      rw [hseen]
      exact Nat.lt_succ_of_lt (hbound n hmem)
    · rw [hn]
      exact hnodup

theorem Inv_runAdds {c : Collector} (h : Inv c) (calls : List AddCall) :
    Inv (runAdds c calls) := by
  induction calls generalizing c with
  | nil => exact h
  | cons a rest ih => exact ih (Inv_AddLine h a.1 a.2.1 a.2.2)

/-! The length bookkeeping needed for the capacity bound. -/

theorem lines_length_AddLine {c : Collector}
    (hmin : (c.lines.length : ℤ) = min (c.linesSeen : ℤ) c.LinesToKeep)
    (line : String) (rf : ℚ) (e : ℕ) :
    ((AddLine c line rf e).lines.length : ℤ)
      = min (((AddLine c line rf e).linesSeen : ℤ)) (AddLine c line rf e).LinesToKeep := by
  rw [AddLine_linesSeen, AddLine_LinesToKeep]
  rcases AddLine_cases c line rf e with ⟨hc, hl, _⟩ | ⟨hc, _, hl, _⟩ | ⟨hc, _, hl, _⟩ <;>
      rw [hl]
  · simp only [List.length_append, List.length_singleton]
    push_cast
    omega
  · simp only [List.length_set]
    push_cast
    omega
  · push_cast
    omega

theorem lines_length_runAdds {c : Collector}
    (hmin : (c.lines.length : ℤ) = min (c.linesSeen : ℤ) c.LinesToKeep)
    (calls : List AddCall) :
    ((runAdds c calls).lines.length : ℤ)
      = min (((runAdds c calls).linesSeen : ℤ)) (runAdds c calls).LinesToKeep := by
  induction calls generalizing c with
  | nil => exact hmin
  | cons a rest ih =>
    rw [runAdds_cons]
    exact ih (lines_length_AddLine hmin a.1 a.2.1 a.2.2)

/-! Facts about the sorted snapshot. -/

theorem sortPairs_perm (ps : List (String × ℕ)) : (sortPairs ps).Perm ps :=
  List.mergeSort_perm ps _

theorem sortPairs_pairwise_le (ps : List (String × ℕ)) :
    (sortPairs ps).Pairwise (fun a b => a.2 ≤ b.2) := by
  have h := @List.sorted_mergeSort (String × ℕ)
    (fun a b => decide (a.2 ≤ b.2))
    (fun a b c hab hbc => by
      simp only [decide_eq_true_eq] at hab hbc ⊢
      omega)
    (fun a b => by
      simp only [Bool.or_eq_true, decide_eq_true_eq]
      omega)
    ps
  exact h.imp (by simp)

theorem sortPairs_pairwise_lt {ps : List (String × ℕ)}
    (h : (ps.map Prod.snd).Nodup) :
    (sortPairs ps).Pairwise (fun a b => a.2 < b.2) := by
  have hperm : ((sortPairs ps).map Prod.snd).Perm (ps.map Prod.snd) :=
    (sortPairs_perm ps).map Prod.snd
  have hnd : ((sortPairs ps).map Prod.snd).Nodup := hperm.nodup_iff.mpr h
  have hne : (sortPairs ps).Pairwise (fun a b => a.2 ≠ b.2) :=
    List.pairwise_map.mp hnd
  exact ((sortPairs_pairwise_le ps).and hne).imp
    (fun hab => lt_of_le_of_ne hab.1 hab.2)

theorem zip_map_fst_snd (l : List (String × ℕ)) :
    (l.map Prod.fst).zip (l.map Prod.snd) = l := by
  have h := List.zip_unzip l
  rw [List.unzip_eq_map] at h
  exact h

theorem mem_map_snd_zip {c : Collector} (hlen : c.lineNumbers.length = c.lines.length) :
    (c.lines.zip c.lineNumbers).map Prod.snd = c.lineNumbers :=
  List.map_snd_zip c.lines c.lineNumbers (by omega)

/-- The snapshot's parallel lists, zipped back into pairs, are exactly the
merge-sorted store pairs. -/
theorem LinesAndNumbers_zip (c : Collector) :
    (LinesAndNumbers c).1.zip (LinesAndNumbers c).2
      = sortPairs (c.lines.zip c.lineNumbers) :=
  zip_map_fst_snd _

/-- The line numbers a snapshot of a reachable state returns are strictly
increasing. -/
theorem snapshot_numbers_sorted (k : ℤ) (calls : List AddCall) :
    (LinesAndNumbers (runAdds (initCollector k) calls)).2.Pairwise (· < ·) := by
  obtain ⟨hlen, hbound, hnodup⟩ := Inv_runAdds (Inv_init k) calls
  have hnd : (((runAdds (initCollector k) calls).lines.zip
      (runAdds (initCollector k) calls).lineNumbers).map Prod.snd).Nodup := by
    rw [mem_map_snd_zip hlen]
    exact hnodup
  exact List.pairwise_map.mpr (sortPairs_pairwise_lt hnd)

/-! Evaluating the three branches of the request handler. -/

theorem ServeHTTP_plain {pval : String} (hp : boolish pval = true)
    (c : Collector) (il : List AddCall) (tval : String) :
    ServeHTTP c il tval pval = .plain (plainBody (LinesAndNumbers c).1) := by
  simp [ServeHTTP, hp]

theorem ServeHTTP_text {tval pval : String} (ht : boolish tval = true)
    (hp : boolish pval = false) (c : Collector) (il : List AddCall) :
    ServeHTTP c il tval pval
      = .text (textBody (LinesAndNumbers c).1 (LinesAndNumbers c).2) := by
  simp [ServeHTTP, ht, hp]

theorem ServeHTTP_json {tval pval : String} (ht : boolish tval = false)
    (hp : boolish pval = false) (c : Collector) (il : List AddCall) :
    ServeHTTP c il tval pval
      = .json (LinesAndNumbers c).1 (LinesAndNumbers c).2 (Seen (runAdds c il)) := by
  simp [ServeHTTP, ht, hp]

/-! Concrete evaluations reused below. -/

theorem sortPairs_example :
    sortPairs (["foo", "bar"].zip [5, 2]) = [("bar", 2), ("foo", 5)] := by
  simp [sortPairs, List.mergeSort, List.merge]

theorem LinesAndNumbers_example :
    LinesAndNumbers ⟨2, ["foo", "bar"], [5, 2], 6⟩ = (["bar", "foo"], [2, 5]) := by
  simp [LinesAndNumbers, sortPairs, List.mergeSort, List.merge]

theorem boolish_eq_false_iff_mem (s : String) : boolish s = false ↔ s ∈ falseish := by
  rw [← Bool.not_eq_true, boolish, List.all_eq_true]
  simp

/-! The claims. -/

/-- C1: the claim states that a full store admits the incoming record iff
the uniform draw satisfies `r < capacity / (seen + 1)`.  The code's keep
test is `r < (capacity - 1) / seen` instead, and the two disagree: with
capacity 1, one record seen (reservoir `[("a", 0)]`, `seen = 1`) and draw
`r = 3/10`, the spec rule admits (`3/10 < 1/2`) but `AddLine` rejects (the
code threshold is `(1-1)/1 = 0`), leaving the reservoir entry unchanged —
with capacity 1 the code in fact never replaces anything. -/
theorem c1_admission_formula_deviates :
    (AddLine ⟨1, ["a"], [0], 1⟩ "b" (3/10) 0).lines = ["a"] ∧
    (AddLine ⟨1, ["a"], [0], 1⟩ "b" (3/10) 0).lineNumbers = [0] ∧
    (AddLine ⟨1, ["a"], [0], 1⟩ "b" (3/10) 0).linesSeen = 2 ∧
    specAdmit 1 1 (3/10) := by
  refine ⟨?_, ?_, ?_, ?_⟩ <;> norm_num [AddLine, specAdmit]

/-- C2: after any sequence of `AddLine` calls on a store of positive
capacity `k`, the number of retained lines equals `min(seen, k)` (hence is
at most `k`), and `seen` equals the number of calls made — so each call
increments it by exactly one, admitted or not.  Every prefix of a call
sequence is itself a call sequence, so this holds at every observation
point. -/
theorem c2_capacity_bound (k : ℤ) (calls : List AddCall) (hk : 0 < k) :
    ((runAdds (initCollector k) calls).lines.length : ℤ)
        = min ((calls.length : ℤ)) k ∧
    (runAdds (initCollector k) calls).linesSeen = calls.length := by
  have hseen : (runAdds (initCollector k) calls).linesSeen = calls.length := by
    rw [runAdds_linesSeen]
    simp [initCollector]
  have hmin0 : (((initCollector k).lines.length : ℤ))
      = min (((initCollector k).linesSeen : ℤ)) (initCollector k).LinesToKeep := by
    simp [initCollector]
    omega
  have h := lines_length_runAdds hmin0 calls
  rw [hseen, runAdds_LinesToKeep] at h
  exact ⟨h, hseen⟩

/-- C3: the snapshot returned by `LinesAndNumbers` on any reachable state
is the store's (content, lineNumber) pairs sorted strictly ascending by
line number: zipping the two returned parallel lists yields a permutation
of the store's zipped slices (each content keeps the number it was stored
with), and the returned numbers are strictly increasing. -/
theorem c3_snapshot_sorted_permutation (k : ℤ) (calls : List AddCall) :
    ((LinesAndNumbers (runAdds (initCollector k) calls)).1.zip
        (LinesAndNumbers (runAdds (initCollector k) calls)).2).Perm
      ((runAdds (initCollector k) calls).lines.zip
        (runAdds (initCollector k) calls).lineNumbers) ∧
    (LinesAndNumbers (runAdds (initCollector k) calls)).2.Pairwise (· < ·) := by
  refine ⟨?_, snapshot_numbers_sorted k calls⟩
  rw [LinesAndNumbers_zip]
  exact sortPairs_perm _

/-- C4: the claim states that the delivered snapshot's entries and seen
count reflect one instant of the store.  The handler captures them under
two separate lock acquisitions, so they need not: starting from capacity 2
after admitting "a" and "b", with one more admit (of "c", draw 0, evicting
slot 0) interleaved between the entry copy and the `Seen()` call, the
response pairs the entries of the instant `seen = 2` with the seen count 3
— and no state the store ever passes through in this execution has that
combination. -/
theorem c4_snapshot_capture_not_atomic :
    ServeHTTP (runAdds (initCollector 2) [("a", 0, 0), ("b", 0, 0)]) [("c", 0, 0)] "" ""
      = .json ["a", "b"] [0, 1] 3 ∧
    ((statesFrom (initCollector 2) [("a", 0, 0), ("b", 0, 0), ("c", 0, 0)]).all
      fun s => !(decide (LinesAndNumbers s = (["a", "b"], [0, 1]) ∧ Seen s = 3))) = true := by
  constructor
  · have h2 : runAdds (initCollector 2) [("a", 0, 0), ("b", 0, 0)]
        = ⟨2, ["a", "b"], [0, 1], 2⟩ := by
      norm_num [runAdds, AddLine, initCollector]
    rw [h2, ServeHTTP_json (by decide) (by decide)]
    have hln : LinesAndNumbers ⟨2, ["a", "b"], [0, 1], 2⟩ = (["a", "b"], [0, 1]) := by
      simp [LinesAndNumbers, sortPairs, List.mergeSort, List.merge]
    have hseen : Seen (runAdds ⟨2, ["a", "b"], [0, 1], 2⟩ [("c", 0, 0)]) = 3 := by
      simp [Seen, runAdds_linesSeen]
    rw [hln, hseen]
  · have htrace : statesFrom (initCollector 2) [("a", 0, 0), ("b", 0, 0), ("c", 0, 0)]
        = [⟨2, [], [], 0⟩, ⟨2, ["a"], [0], 1⟩, ⟨2, ["a", "b"], [0, 1], 2⟩,
            ⟨2, ["c", "b"], [2, 1], 3⟩] := by
      norm_num [statesFrom, AddLine, initCollector]
    rw [htrace]
    have e0 : LinesAndNumbers (⟨2, [], [], 0⟩ : Collector) = ([], []) := by
      simp [LinesAndNumbers, sortPairs, List.mergeSort]
    have e1 : LinesAndNumbers (⟨2, ["a"], [0], 1⟩ : Collector) = (["a"], [0]) := by
      simp [LinesAndNumbers, sortPairs, List.mergeSort]
    have e2 : LinesAndNumbers (⟨2, ["a", "b"], [0, 1], 2⟩ : Collector)
        = (["a", "b"], [0, 1]) := by
      simp [LinesAndNumbers, sortPairs, List.mergeSort, List.merge]
    have e3 : LinesAndNumbers (⟨2, ["c", "b"], [2, 1], 3⟩ : Collector)
        = (["b", "c"], [1, 2]) := by
      simp [LinesAndNumbers, sortPairs, List.mergeSort, List.merge]
    simp [List.all_cons, e0, e1, e2, e3, Seen]

/-- C5: the claim states that `boolish` is false iff the value is empty or
a case-insensitive match of "false", "f" or "0".  The code compares
against the seven literal strings in `falseish` only, so the mixed-case
spelling "falsE" — a case-insensitive match of "false" — is nevertheless
truthy. -/
theorem c5_counterexample_mixed_case :
    boolish "falsE" = true ∧ specFalseToken "falsE" :=
  ⟨by decide, by decide⟩

/-- C5 (amended): `boolish s` is false iff `s` is exactly one of the seven
`falseish` tokens: empty, "f", "F", "False", "FALSE", "false", or "0".
Case-insensitivity holds fully for "f" and "0" but only for the three
listed spellings of "false". -/
theorem c5_boolish_exact_tokens (s : String) :
    boolish s = false ↔
      s = "" ∨ s = "f" ∨ s = "F" ∨ s = "False" ∨ s = "FALSE" ∨ s = "false" ∨ s = "0" := by
  rw [boolish_eq_false_iff_mem]
  simp [falseish]

/-- C6: every line number a snapshot of a reachable state returns is
strictly below the seen count captured in the same snapshot (even though
the seen count is read under a second lock acquisition, after arbitrarily
many interleaved admits, it can only have grown), and no two entries of
one snapshot share a line number. -/
theorem c6_index_fidelity (k : ℤ) (calls interleave : List AddCall) :
    (∀ n ∈ (LinesAndNumbers (runAdds (initCollector k) calls)).2,
        n < Seen (runAdds (runAdds (initCollector k) calls) interleave)) ∧
    (LinesAndNumbers (runAdds (initCollector k) calls)).2.Nodup := by
  obtain ⟨hlen, hbound, hnodup⟩ := Inv_runAdds (Inv_init k) calls
  have hsnd : ((sortPairs ((runAdds (initCollector k) calls).lines.zip
        (runAdds (initCollector k) calls).lineNumbers)).map Prod.snd).Perm
      (runAdds (initCollector k) calls).lineNumbers := by
    have h := (sortPairs_perm ((runAdds (initCollector k) calls).lines.zip
      (runAdds (initCollector k) calls).lineNumbers)).map Prod.snd
    rwa [mem_map_snd_zip hlen] at h
  constructor
  · intro n hmem
    have hn : n ∈ (runAdds (initCollector k) calls).lineNumbers :=
      hsnd.mem_iff.mp hmem
    have hlt := hbound n hn
    rw [Seen, runAdds_linesSeen]
    omega
  · exact hsnd.nodup_iff.mpr hnodup

/-- C7: the claim states that every request with truthy `t` gets the
`<lineNumber>\t<content>\n` body.  When `p` is also truthy the handler
takes the plain branch first: on the reservoir `[(5,"foo"),(2,"bar")]` a
request with `t=1` and `p=1` yields `"bar\nfoo\n"`, not the tab-separated
body. -/
theorem c7_counterexample_both_truthy :
    boolish "1" = true ∧
    ServeHTTP ⟨2, ["foo", "bar"], [5, 2], 6⟩ [] "1" "1" = .plain "bar\nfoo\n" ∧
    ServeHTTP ⟨2, ["foo", "bar"], [5, 2], 6⟩ [] "1" "1" ≠ .text "2\tbar\n5\tfoo\n" := by
  have hbody : ServeHTTP ⟨2, ["foo", "bar"], [5, 2], 6⟩ [] "1" "1"
      = .plain "bar\nfoo\n" := by
    rw [ServeHTTP_plain (by decide), LinesAndNumbers_example]
    decide
  refine ⟨by decide, hbody, ?_⟩
  rw [hbody]
  decide

/-- C7 (amended): a pull request with truthy `t` and non-truthy `p` gets
the plain-text body `<lineNumber>\t<content>\n` per entry; a request with
truthy `p` gets `<content>\n` per entry; both iterate the snapshot's
lists, whose line numbers are strictly ascending on every reachable state;
and on the reservoir `[(5,"foo"),(2,"bar")]` the `p` body is
`"bar\nfoo\n"` and the `t` body is `"2\tbar\n5\tfoo\n"`. -/
theorem c7_formats (k : ℤ) (calls interleave : List AddCall) (tval pval : String) :
    (boolish pval = true →
      ServeHTTP (runAdds (initCollector k) calls) interleave tval pval
        = .plain (plainBody (LinesAndNumbers (runAdds (initCollector k) calls)).1)) ∧
    (boolish tval = true → boolish pval = false →
      ServeHTTP (runAdds (initCollector k) calls) interleave tval pval
        = .text (textBody (LinesAndNumbers (runAdds (initCollector k) calls)).1
            (LinesAndNumbers (runAdds (initCollector k) calls)).2)) ∧
    (LinesAndNumbers (runAdds (initCollector k) calls)).2.Pairwise (· < ·) ∧
    ServeHTTP ⟨2, ["foo", "bar"], [5, 2], 6⟩ [] "" "1" = .plain "bar\nfoo\n" ∧
    ServeHTTP ⟨2, ["foo", "bar"], [5, 2], 6⟩ [] "1" "" = .text "2\tbar\n5\tfoo\n" := by
  refine ⟨fun hp => ServeHTTP_plain hp _ _ _,
    fun ht hp => ServeHTTP_text ht hp _ _,
    snapshot_numbers_sorted k calls, ?_, ?_⟩
  · rw [ServeHTTP_plain (by decide), LinesAndNumbers_example]
    decide
  · rw [ServeHTTP_text (by decide) (by decide), LinesAndNumbers_example]
    decide

/-- C8: the claim states that the main flow's wait is always released once
a trigger has fired.  `gcond.Wait()` in `main` has no predicate recheck, so
a broadcast that precedes it is lost: in the interleaving where the stream
is exhausted (e.g. empty stdin) before `main` reaches `gcond.Wait()`, a
trigger has fired yet `main` waits forever (first three conjuncts); the
fourth conjunct shows a second trigger arriving after that wait is what
would release `main`, so it is not a no-op either. -/
theorem c8_lost_wakeup :
    (gateRun gateInit [GateEv.exhaustTrigger, GateEv.mainWait]).shouldquit = false ∧
    (gateRun gateInit [GateEv.exhaustTrigger, GateEv.mainWait]).mainWaiting = true ∧
    (gateRun gateInit [GateEv.exhaustTrigger, GateEv.mainWait]).mainWoken = false ∧
    (gateRun gateInit
      [GateEv.exhaustTrigger, GateEv.mainWait, GateEv.interruptTrigger]).mainWoken = true :=
  ⟨by decide, by decide, by decide, by decide⟩

/-- C9: with a non-positive capacity every `AddLine` call still completes
(the keep test compares the draw against a degenerate or negative
threshold and is false, so `rng.Intn` is never reached), the reservoir
stays empty, and `seen` still increments once per call. -/
theorem c9_nonpositive_capacity_safe (k : ℤ) (calls : List AddCall)
    (hk : k ≤ 0) (hrf : ∀ a ∈ calls, 0 ≤ a.2.1) :
    (runAdds (initCollector k) calls).lines = [] ∧
    (runAdds (initCollector k) calls).lineNumbers = [] ∧
    (runAdds (initCollector k) calls).linesSeen = calls.length := by
  have main : ∀ (cs : List AddCall) (c : Collector), c.LinesToKeep ≤ 0 →
      (∀ a ∈ cs, 0 ≤ a.2.1) →
      (runAdds c cs).lines = c.lines ∧
      (runAdds c cs).lineNumbers = c.lineNumbers ∧
      (runAdds c cs).linesSeen = c.linesSeen + cs.length := by
    intro cs
    induction cs with
    | nil =>
      intro c _ _
      exact ⟨rfl, rfl, by simp [runAdds_nil]⟩
    | cons a rest ih =>
      intro c hck hcrf
      rw [runAdds_cons,
        AddLine_of_nonpositive hck (hcrf a (List.mem_cons_self a rest)) a.1 a.2.2]
      obtain ⟨h1, h2, h3⟩ := ih { c with linesSeen := c.linesSeen + 1 } hck
        (fun x hx => hcrf x (List.mem_cons_of_mem a hx))
      refine ⟨h1, h2, ?_⟩
      rw [h3]
      simp
      omega
  obtain ⟨h1, h2, h3⟩ := main calls (initCollector k) hk hrf
  exact ⟨h1, h2, by rw [h3]; simp [initCollector]⟩

/-- C10: when both `p` and `t` are truthy the plain branch wins: the body
is the `<content>\n` rendering of the snapshot's contents, with the line
numbers omitted. -/
theorem c10_plain_precedence (c : Collector) (interleave : List AddCall)
    (tval pval : String) (ht : boolish tval = true) (hp : boolish pval = true) :
    ServeHTTP c interleave tval pval = .plain (plainBody (LinesAndNumbers c).1) :=
  ServeHTTP_plain hp c interleave tval

/-! Witnesses for the claim theorems that carry hypotheses. -/

def c2calls : List AddCall := [("a", 0, 0), ("b", 0, 0), ("c", 0, 0)]

/-- Witness for C2 at capacity 2 and three concrete calls. -/
theorem c2_capacity_bound_witness :
    0 < (2 : ℤ) ∧
    (((runAdds (initCollector 2) c2calls).lines.length : ℤ)
        = min ((c2calls.length : ℤ)) 2 ∧
      (runAdds (initCollector 2) c2calls).linesSeen = c2calls.length) :=
  ⟨by decide, c2_capacity_bound 2 c2calls (by decide)⟩

def c7calls : List AddCall := [("foo", 0, 0), ("bar", 0, 0)]

/-- Witness for C7 (amended) with the hypotheses discharged at concrete
parameter values. -/
theorem c7_formats_witness :
    boolish "1" = true ∧ boolish "" = false ∧
    ServeHTTP (runAdds (initCollector 2) c7calls) [] "x" "1"
      = .plain (plainBody (LinesAndNumbers (runAdds (initCollector 2) c7calls)).1) ∧
    ServeHTTP (runAdds (initCollector 2) c7calls) [] "1" ""
      = .text (textBody (LinesAndNumbers (runAdds (initCollector 2) c7calls)).1
          (LinesAndNumbers (runAdds (initCollector 2) c7calls)).2) :=
  ⟨by decide, by decide,
    (c7_formats 2 c7calls [] "x" "1").1 (by decide),
    (c7_formats 2 c7calls [] "1" "").2.1 (by decide) (by decide)⟩

def c9calls : List AddCall := [("a", 0, 0), ("b", 1, 0)]

/-- Witness for C9 at capacity 0 and two concrete calls with nonnegative
draws. -/
theorem c9_nonpositive_capacity_witness :
    (0 : ℤ) ≤ 0 ∧ (∀ a ∈ c9calls, 0 ≤ a.2.1) ∧
    ((runAdds (initCollector 0) c9calls).lines = [] ∧
      (runAdds (initCollector 0) c9calls).lineNumbers = [] ∧
      (runAdds (initCollector 0) c9calls).linesSeen = c9calls.length) :=
  ⟨by decide, by simp [c9calls],
    c9_nonpositive_capacity_safe 0 c9calls (by decide) (by simp [c9calls])⟩

/-- Witness for C10 at a concrete store and concrete truthy parameters. -/
theorem c10_plain_precedence_witness :
    boolish "1" = true ∧
    ServeHTTP ⟨2, ["foo", "bar"], [5, 2], 6⟩ [] "1" "1"
      = .plain (plainBody (LinesAndNumbers ⟨2, ["foo", "bar"], [5, 2], 6⟩).1) :=
  ⟨by decide, c10_plain_precedence _ [] "1" "1" (by decide) (by decide)⟩

end SSample
